import Mathlib

/-!
Verification of the Fit_Logger challenge progress and completion engine.

The repository under verification is a React frontend; the backend engine
(progress validator, completion calculator, lifecycle manager) is reached
only through HTTP calls.  Definitions below therefore come from two places:

* the client-side logic in `src/frontend/src/components/ChallengeDetail.jsx`
  and `src/pages/Profile.jsx` (the `handleLogProgress` / `handleLogSubmit`
  rate pre-check and the rendering of challenge details), embedded directly
  from the source; and
* the backend operations, which are absent from the repository sources and
  are modelled from the specification (each such definition carries a doc
  comment starting with `Modelled from the spec:`).

Numbers are embedded as rationals; all theorems about divisions carry the
hypothesis that the divisor is positive, matching the region where JS
floating-point division and exact rational division agree in sign and
comparison outcomes for the quantities involved.
-/

namespace FitLogger

/-! ### Client-side model (from the frontend sources) -/

/-- A JavaScript value as far as the frontend's `challenge_type` checks are
concerned: a number, a string, `null`, `undefined`, or a boolean. -/
inductive JSVal where
  | num (q : ℚ)
  | str (s : String)
  | null
  | undef
  | bool (b : Bool)
deriving DecidableEq

/-- JS strict equality `v === q` against a number literal. -/
def strictEqNum (v : JSVal) (q : ℚ) : Bool :=
  match v with
  | .num n => n == q
  | _ => false

/-- JS strict equality `v === s` against a string literal. -/
def strictEqStr (v : JSVal) (s : String) : Bool :=
  match v with
  | .str t => t == s
  | _ => false

/-- The challenge-type label rendered by `ChallengeDetail.jsx` line 196 and
`Profile.jsx` line 363: `challenge_type === 0 ? "Habit Based" : "Goal Based"`. -/
def typeLabel (ct : JSVal) : String :=
  if strictEqNum ct 0 then "Habit Based" else "Goal Based"

/-- Whether `ChallengeDetail.jsx` line 228 renders the habit detail fields:
`challenge.challenge_type === 'Habit' && challenge.habit_details`. -/
def rendersHabitDetails (ct : JSVal) (habit_details : Bool) : Bool :=
  strictEqStr ct "Habit" && habit_details

/-- Whether `ChallengeDetail.jsx` line 235 renders the target detail fields:
`challenge.challenge_type === 'Target' && challenge.target_details`. -/
def rendersTargetDetails (ct : JSVal) (target_details : Bool) : Bool :=
  strictEqStr ct "Target" && target_details

/-- The frontend's `challenge?.max_rate_per_minute || 100`: an absent, `null`,
`undefined` or `0` field (all falsy in JS) is replaced by the default cap 100.
`none` stands for an absent/null/undefined field. -/
def effectiveMaxRate : Option ℚ → ℚ
  | none => 100
  | some v => if v = 0 then 100 else v

/-- Outcome of the client-side rate pre-check in `handleLogProgress`
(`ChallengeDetail.jsx` lines 109–147) / `handleLogSubmit` (`Profile.jsx`
lines 139–179), after the form's required-field guard has passed and the
numeric fields have been parsed: either the error path (`setError`/`alert`
with the maximum rate and the computed rate interpolated into the message,
then `return` without issuing the request), or the `logProgress` request
with the submitted values. -/
inductive ClientLogOutcome where
  | rateError (maxRate rate : ℚ)
  | request (progress_value duration_minutes : ℚ) (notes : String)
deriving DecidableEq

/-- The client-side rate check of `handleLogProgress` / `handleLogSubmit`:
`ratePerMinute = progressValue / durationMinutes`;
`maxRatePerMinute = challenge?.max_rate_per_minute || 100`;
`if (ratePerMinute > maxRatePerMinute)` report the error and stop, else
issue the `logProgress` request. -/
def handleLogProgress (maxRate? : Option ℚ) (progressValue durationMinutes : ℚ)
    (notes : String) : ClientLogOutcome :=
  let ratePerMinute := progressValue / durationMinutes
  let maxRatePerMinute := effectiveMaxRate maxRate?
  if maxRatePerMinute < ratePerMinute then .rateError maxRatePerMinute ratePerMinute
  else .request progressValue durationMinutes notes

/-- The client state touched by a progress submission: the progress history
shown to the user and the error banner's numeric payload (the maximum rate
and the computed rate that `handleLogProgress` interpolates into the error
message). -/
structure ClientState where
  progressHistory : List (ℚ × ℚ × String)
  errorValues : Option (ℚ × ℚ)
  showLogForm : Bool
deriving DecidableEq

/-- One client submission step: on the rate-error path the error values are
set and no request is issued (second component `none`); otherwise the
`logProgress` request is returned for the server. -/
def clientStep (maxRate? : Option ℚ) (p d : ℚ) (n : String) (s : ClientState) :
    ClientState × Option (ℚ × ℚ × String) :=
  match handleLogProgress maxRate? p d n with
  | .rateError m r => ({ s with errorValues := some (m, r) }, none)
  | .request pv dm nt => (s, some (pv, dm, nt))

end FitLogger

namespace FitLogger

/-- C10: the type label is chosen by the numeric test `challenge_type === 0`
while the habit detail section is gated by the string test
`challenge_type === 'Habit'`; no JS value satisfies both a numeric and a
string strict equality, so the view never renders the "Habit Based" label
together with the habit detail fields, and a numeric-typed challenge value
never renders the target detail section at all. -/
theorem type_label_habit_details_disjoint (ct : JSVal) (hd td : Bool) :
    (¬ (typeLabel ct = "Habit Based" ∧ rendersHabitDetails ct hd = true)) ∧
    (∀ q : ℚ, ct = JSVal.num q → rendersTargetDetails ct td = false) := by
  constructor
  · rintro ⟨h1, h2⟩
    cases ct <;>
      simp [typeLabel, rendersHabitDetails, strictEqNum, strictEqStr] at h1 h2
  · rintro q rfl
    simp [rendersTargetDetails, strictEqStr]

/-- Witness for C10 at the concrete value `challenge_type = 1` (a number):
the target detail section is not rendered. -/
theorem type_label_habit_details_disjoint_witness :
    rendersTargetDetails (JSVal.num 1) true = false :=
  (type_label_habit_details_disjoint (JSVal.num 1) true true).2 1 rfl

/-- C9: when the challenge's `max_rate_per_minute` is absent/null (`none`) or
`0`, the client rate check runs against the default cap 100, and a submission
with positive duration passes the check (issuing the request) iff
`progress_value / duration_minutes ≤ 100`. -/
theorem client_default_cap_100 (m? : Option ℚ) (p d : ℚ) (n : String)
    (hd : 0 < d) (hm : m? = none ∨ m? = some 0) :
    handleLogProgress m? p d n = ClientLogOutcome.request p d n ↔ p / d ≤ 100 := by
  have hcap : effectiveMaxRate m? = 100 := by
    rcases hm with rfl | rfl <;> simp [effectiveMaxRate]
  by_cases h : (100 : ℚ) < p / d
  · simp [handleLogProgress, hcap, h, not_le.mpr h]
  · simp [handleLogProgress, hcap, h, not_lt.mp h]

/-! ### Progress Validator (spec-modelled) -/

/-- Modelled from the spec: the Exercise catalog entry's rate and session
caps (spec §3). The backend Exercise model is not part of the repository
sources. The invariant "caps are always > 0" appears as a hypothesis on
the theorems that need it. -/
structure Exercise where
  max_sessions_per_day : ℕ
  max_rate_per_minute : ℚ
deriving DecidableEq

/-- Modelled from the spec: a submitted/accepted progress entry (spec §3).
`loggedDay` is the calendar day (server time zone) on which the entry's
`logged_at` timestamp falls, abstracted as a day index. -/
structure ProgressEntry where
  progress_value : ℚ
  duration_minutes : ℚ
  loggedDay : ℕ
deriving DecidableEq

/-- Modelled from the spec: the Validator's result taxonomy (spec §4.1 and
§6): `Ok`, `InvalidInput` for non-positive duration, `RateExceeded` and
`SessionCapExceeded`, the failures carrying the offending numeric values
(spec §7: errors are surfaced with the offending values). -/
inductive ValidationResult where
  | ok
  | invalidInput
  | rateExceeded (rate maxRate : ℚ)
  | sessionCapExceeded (count cap : ℕ)
deriving DecidableEq

/-- Number of already-accepted entries of the participant whose `logged_at`
falls on the given calendar day. -/
def countOnDay (history : List ProgressEntry) (day : ℕ) : ℕ :=
  (history.filter fun e => e.loggedDay = day).length

/-- Modelled from the spec: the Progress Validator (spec §4.1), absent from
the repository sources (the frontend only duplicates the rate check).
Order of checks as specified: non-positive duration fails first with
`InvalidInput` before the rate is computed; then the strictly-greater-than
rate check; then the per-day session cap ("fails when the count would
exceed `max_sessions_per_day`", counting the submission itself). -/
def validate (ex : Exercise) (history : List ProgressEntry) (e : ProgressEntry) :
    ValidationResult :=
  if e.duration_minutes ≤ 0 then .invalidInput
  else
    let rate := e.progress_value / e.duration_minutes
    if ex.max_rate_per_minute < rate then .rateExceeded rate ex.max_rate_per_minute
    else if ex.max_sessions_per_day < countOnDay history e.loggedDay + 1 then
      .sessionCapExceeded (countOnDay history e.loggedDay + 1) ex.max_sessions_per_day
    else .ok

/-- C1: with a positive duration and the session cap not yet reached, the
validator rejects with `RateExceeded` exactly when the computed rate
`progress_value / duration_minutes` is strictly greater than the exercise's
`max_rate_per_minute`, and accepts (`Ok`) exactly when the rate is at most
the cap (equality accepted); the client-side pre-check in the frontend
issues the `logProgress` request under exactly the same strict comparison. -/
theorem validate_rate_strict_gt (ex : Exercise) (history : List ProgressEntry)
    (e : ProgressEntry) (n : String)
    (hd : 0 < e.duration_minutes)
    (hm : 0 < ex.max_rate_per_minute)
    (hcap : countOnDay history e.loggedDay + 1 ≤ ex.max_sessions_per_day) :
    (validate ex history e =
        ValidationResult.rateExceeded (e.progress_value / e.duration_minutes)
          ex.max_rate_per_minute ↔
      ex.max_rate_per_minute < e.progress_value / e.duration_minutes) ∧
    (validate ex history e = ValidationResult.ok ↔
      e.progress_value / e.duration_minutes ≤ ex.max_rate_per_minute) ∧
    (handleLogProgress (some ex.max_rate_per_minute) e.progress_value
        e.duration_minutes n =
        ClientLogOutcome.request e.progress_value e.duration_minutes n ↔
      e.progress_value / e.duration_minutes ≤ ex.max_rate_per_minute) := by
  have hfront : effectiveMaxRate (some ex.max_rate_per_minute) =
      ex.max_rate_per_minute := by
    simp [effectiveMaxRate, ne_of_gt hm]
  by_cases hr : ex.max_rate_per_minute < e.progress_value / e.duration_minutes
  · refine ⟨?_, ?_, ?_⟩
    · simp [validate, not_le.mpr hd, hr]
    · simp [validate, not_le.mpr hd, hr, not_le.mpr hr]
    · simp [handleLogProgress, hfront, hr, not_le.mpr hr]
  · refine ⟨?_, ?_, ?_⟩
    · simp [validate, not_le.mpr hd, hr, not_lt.mpr hcap]
    · simp [validate, not_le.mpr hd, hr, not_lt.mp hr, not_lt.mpr hcap]
    · simp [handleLogProgress, hfront, hr, not_lt.mp hr]

/-- Witness for C1 at the spec's scenario: `max_rate_per_minute = 10`,
submission `(50, 4)` (rate 12.5) is rejected with `RateExceeded` and
submission `(40, 4)` (rate 10) is accepted. -/
theorem validate_rate_strict_gt_witness :
    validate ⟨2, 10⟩ [] ⟨50, 4, 0⟩ =
        ValidationResult.rateExceeded ((50 : ℚ) / 4) 10 ∧
      validate ⟨2, 10⟩ [] ⟨40, 4, 0⟩ = ValidationResult.ok :=
  ⟨(validate_rate_strict_gt ⟨2, 10⟩ [] ⟨50, 4, 0⟩ "" (by norm_num) (by norm_num)
      (by decide)).1.mpr (by norm_num),
   ((validate_rate_strict_gt ⟨2, 10⟩ [] ⟨40, 4, 0⟩ "" (by norm_num) (by norm_num)
      (by decide)).2.1).mpr (by norm_num)⟩

/-- C3: a submission with zero or negative `duration_minutes` fails the
validator immediately with the distinct `InvalidInput` kind, before the
rate is computed, and in particular is never a `RateExceeded` outcome. -/
theorem validate_nonpositive_duration_invalidInput (ex : Exercise)
    (history : List ProgressEntry) (e : ProgressEntry)
    (hd : e.duration_minutes ≤ 0) :
    validate ex history e = ValidationResult.invalidInput ∧
      ∀ r m : ℚ, validate ex history e ≠ ValidationResult.rateExceeded r m := by
  have h : validate ex history e = ValidationResult.invalidInput := by
    simp [validate, hd]
  exact ⟨h, fun r m hc => by rw [h] at hc; exact ValidationResult.noConfusion hc⟩

/-- Witness for C3 at duration 0 (and the validator evaluated there). -/
theorem validate_nonpositive_duration_invalidInput_witness :
    validate ⟨2, 10⟩ [] ⟨5, 0, 0⟩ = ValidationResult.invalidInput :=
  (validate_nonpositive_duration_invalidInput ⟨2, 10⟩ [] ⟨5, 0, 0⟩ (by norm_num)).1

/-- C6: for a submission that passes the duration and rate checks, the
validator fails with `SessionCapExceeded` exactly when the count of
already-accepted same-calendar-day entries of the participant, plus the
submission itself, would exceed the exercise's `max_sessions_per_day`. -/
theorem validate_session_cap (ex : Exercise) (history : List ProgressEntry)
    (e : ProgressEntry)
    (hd : 0 < e.duration_minutes)
    (hr : e.progress_value / e.duration_minutes ≤ ex.max_rate_per_minute) :
    validate ex history e =
        ValidationResult.sessionCapExceeded (countOnDay history e.loggedDay + 1)
          ex.max_sessions_per_day ↔
      ex.max_sessions_per_day < countOnDay history e.loggedDay + 1 := by
  by_cases hc : ex.max_sessions_per_day < countOnDay history e.loggedDay + 1
  · simp [validate, not_le.mpr hd, not_lt.mpr hr, hc]
  · simp [validate, not_le.mpr hd, not_lt.mpr hr, hc]

/-- Witness for C6 at the spec's scenario: `max_sessions_per_day = 2`, two
valid same-day entries already accepted; the third valid-rate submission on
that day fails with `SessionCapExceeded`. -/
theorem validate_session_cap_witness :
    validate ⟨2, 10⟩ [⟨10, 2, 0⟩, ⟨10, 2, 0⟩] ⟨10, 2, 0⟩ =
      ValidationResult.sessionCapExceeded 3 2 :=
  ((validate_session_cap ⟨2, 10⟩ [⟨10, 2, 0⟩, ⟨10, 2, 0⟩] ⟨10, 2, 0⟩ (by norm_num)
      (by norm_num)).mpr (by decide)).trans (by decide)

/-- C8: when the client rate check fails, the submission step is pure apart
from the error banner: no `logProgress` request is issued (`none`), the
progress history and form visibility are unchanged, and the error payload
carries the offending numeric values — the maximum allowed rate and the
computed rate. -/
theorem client_rate_error_pure (maxRate? : Option ℚ) (p d : ℚ) (n : String)
    (s : ClientState) (hrate : effectiveMaxRate maxRate? < p / d) :
    (clientStep maxRate? p d n s).2 = none ∧
      (clientStep maxRate? p d n s).1.progressHistory = s.progressHistory ∧
      (clientStep maxRate? p d n s).1.showLogForm = s.showLogForm ∧
      (clientStep maxRate? p d n s).1.errorValues =
        some (effectiveMaxRate maxRate?, p / d) := by
  have h : handleLogProgress maxRate? p d n =
      ClientLogOutcome.rateError (effectiveMaxRate maxRate?) (p / d) := by
    simp [handleLogProgress, hrate]
  simp [clientStep, h]

/-- Witness for C8 at cap 10 and submission `(50, 4)` (rate 12.5). -/
theorem client_rate_error_pure_witness :
    (clientStep (some 10) 50 4 "" ⟨[], none, true⟩).2 = none ∧
      (clientStep (some 10) 50 4 "" ⟨[], none, true⟩).1.progressHistory = [] ∧
      (clientStep (some 10) 50 4 "" ⟨[], none, true⟩).1.showLogForm = true ∧
      (clientStep (some 10) 50 4 "" ⟨[], none, true⟩).1.errorValues =
        some (effectiveMaxRate (some 10), (50 : ℚ) / 4) :=
  client_rate_error_pure (some 10) 50 4 "" ⟨[], none, true⟩ (by norm_num [effectiveMaxRate])

/-! ### Completion Calculator (spec-modelled) -/

/-- Modelled from the spec: participant state flag (spec §3); `left` is the
user-initiated exit, tracked here for completeness of the enum. -/
inductive PState where
  | active
  | completed
  | leftState
deriving DecidableEq

/-- Modelled from the spec: a participant of a target challenge as the
Completion Calculator sees it — the ledger of the participant's accepted
`progress_value`s in append order, and the Active/Completed flag. -/
structure TargetParticipant where
  entries : List ℚ
  status : PState
deriving DecidableEq

/-- Modelled from the spec: `total_progress` is the sum of the participant's
entries' `progress_value` (spec §4.3). -/
def totalProgress (s : TargetParticipant) : ℚ :=
  s.entries.sum

/-- Modelled from the spec:
`progress_percentage = min(100, 100 * total_progress / target_value)`
for target challenges (spec §4.3). -/
def targetPercentage (target : ℚ) (s : TargetParticipant) : ℚ :=
  min 100 (100 * totalProgress s / target)

/-- Modelled from the spec: appending a new accepted entry to a target
participant; the Active→Completed transition is evaluated on every new
entry append, the moment `total_progress ≥ target_value` (spec §4.3). -/
def appendEntry (target : ℚ) (s : TargetParticipant) (v : ℚ) : TargetParticipant :=
  let entries' := s.entries ++ [v]
  if s.status = PState.active ∧ target ≤ entries'.sum then
    ⟨entries', PState.completed⟩
  else
    ⟨entries', s.status⟩

/-- C2: appending an entry of value `v` to an Active participant of a target
challenge adds `v` to `total_progress`, makes `progress_percentage` equal to
`min(100, 100 * total_progress / target_value)` for the new total, and flips
the status to Completed exactly when the new total reaches the target. -/
theorem target_append_percentage_completion (target : ℚ) (s : TargetParticipant)
    (v : ℚ) (hs : s.status = PState.active) :
    totalProgress (appendEntry target s v) = totalProgress s + v ∧
    targetPercentage target (appendEntry target s v) =
      min 100 (100 * (totalProgress s + v) / target) ∧
    ((appendEntry target s v).status = PState.completed ↔
      target ≤ totalProgress s + v) := by
  have he : appendEntry target s v =
      if s.status = PState.active ∧ target ≤ (s.entries ++ [v]).sum then
        ⟨s.entries ++ [v], PState.completed⟩
      else ⟨s.entries ++ [v], s.status⟩ := rfl
  by_cases hc : target ≤ totalProgress s + v
  · rw [he, if_pos ⟨hs, by simpa [totalProgress] using hc⟩]
    exact ⟨by simp [totalProgress], by simp [targetPercentage, totalProgress],
      by simp [hc]⟩
  · rw [he, if_neg (fun hpair => hc (by simpa [totalProgress] using hpair.2))]
    exact ⟨by simp [totalProgress], by simp [targetPercentage, totalProgress],
      by simp [hs, hc]⟩

/-- Witness for C2 at the spec's scenario: target 100, log 60 then 45.
After the first append the percentage is 60 and the status Active; after
the second the total is 105, the percentage 100 and the status Completed. -/
theorem target_append_percentage_completion_witness :
    targetPercentage 100 (appendEntry 100 ⟨[], PState.active⟩ 60) = 60 ∧
    (appendEntry 100 ⟨[], PState.active⟩ 60).status = PState.active ∧
    totalProgress (appendEntry 100 (appendEntry 100 ⟨[], PState.active⟩ 60) 45) = 105 ∧
    targetPercentage 100 (appendEntry 100 (appendEntry 100 ⟨[], PState.active⟩ 60) 45) = 100 ∧
    (appendEntry 100 (appendEntry 100 ⟨[], PState.active⟩ 60) 45).status = PState.completed := by
  have hstat : (appendEntry 100 ⟨[], PState.active⟩ 60).status = PState.active := by
    norm_num [appendEntry]
  have h1 := target_append_percentage_completion 100 ⟨[], PState.active⟩ 60 rfl
  have h2 := target_append_percentage_completion 100
    (appendEntry 100 ⟨[], PState.active⟩ 60) 45 hstat
  have htot : totalProgress (appendEntry 100 ⟨[], PState.active⟩ 60) = 60 := by
    norm_num [appendEntry, totalProgress]
  refine ⟨h1.2.1.trans (by norm_num [totalProgress, min_def]), hstat,
    h2.1.trans (by rw [htot]; norm_num),
    h2.2.1.trans (by rw [htot]; norm_num [min_def]),
    h2.2.2.mpr (by rw [htot]; norm_num)⟩

/-- Modelled from the spec: `clamp(0..1, q)` (spec §4.3). -/
def clamp01 (q : ℚ) : ℚ :=
  max 0 (min 1 q)

/-- Modelled from the spec: the habit-challenge percentage (spec §4.3),
`round(clamp(0..1, (now - created_at) / (duration_weeks * 7 days)) * 100)`.
Time is measured in days; `durationWeeks * 7` is the total duration. -/
def habitPercentage (createdAt : ℚ) (durationWeeks : ℕ) (now : ℚ) : ℤ :=
  round (clamp01 ((now - createdAt) / ((durationWeeks : ℚ) * 7)) * 100)

/-- Modelled from the spec: a habit-challenge participant's percentage as a
function of the participant's logged entries and the current time — the spec
makes it time-based, so the entries do not enter the computation (spec §4.3,
"progress is time-based, not volume-based"). -/
def habitParticipantPercentage (createdAt : ℚ) (durationWeeks : ℕ)
    (entries : List ℚ) (now : ℚ) : ℤ :=
  habitPercentage createdAt durationWeeks now

/-- C5: the habit participant's percentage equals
`round(clamp(0..1, (now - created_at) / (duration_weeks * 7)) * 100)`, is
independent of the logged entries, and is monotonically non-decreasing in
real time. -/
theorem habit_percentage_time_monotone (createdAt : ℚ) (w : ℕ) (hw : 0 < w)
    (entries entries' : List ℚ) (now now' : ℚ) (h : now ≤ now') :
    habitParticipantPercentage createdAt w entries now =
      round (clamp01 ((now - createdAt) / ((w : ℚ) * 7)) * 100) ∧
    habitParticipantPercentage createdAt w entries now =
      habitParticipantPercentage createdAt w entries' now ∧
    habitParticipantPercentage createdAt w entries now ≤
      habitParticipantPercentage createdAt w entries' now' := by
  refine ⟨rfl, rfl, ?_⟩
  have hT : (0 : ℚ) < (w : ℚ) * 7 := by positivity
  have hdiv : (now - createdAt) / ((w : ℚ) * 7) ≤
      (now' - createdAt) / ((w : ℚ) * 7) :=
    (div_le_div_right hT).mpr (by linarith)
  have hclamp : clamp01 ((now - createdAt) / ((w : ℚ) * 7)) ≤
      clamp01 ((now' - createdAt) / ((w : ℚ) * 7)) :=
    max_le_max le_rfl (min_le_min le_rfl hdiv)
  have hmul : clamp01 ((now - createdAt) / ((w : ℚ) * 7)) * 100 ≤
      clamp01 ((now' - createdAt) / ((w : ℚ) * 7)) * 100 := by
    nlinarith [hclamp]
  show round (clamp01 ((now - createdAt) / ((w : ℚ) * 7)) * 100) ≤
    round (clamp01 ((now' - createdAt) / ((w : ℚ) * 7)) * 100)
  rw [round_eq, round_eq]
  exact Int.floor_le_floor (by linarith)

/-- Witness for C5: created at day 0, one-week duration, entry lists `[]`
and `[1, 2]`, times day 3 and day 4. -/
theorem habit_percentage_time_monotone_witness :
    habitParticipantPercentage 0 1 [] 3 =
      round (clamp01 (((3 : ℚ) - 0) / ((1 : ℚ) * 7)) * 100) ∧
    habitParticipantPercentage 0 1 [] 3 =
      habitParticipantPercentage 0 1 [1, 2] 3 ∧
    habitParticipantPercentage 0 1 [] 3 ≤
      habitParticipantPercentage 0 1 [1, 2] 4 :=
  habit_percentage_time_monotone 0 1 (by norm_num) [] [1, 2] 3 4 (by norm_num)

/-! ### Challenge/Participant Lifecycle Manager (spec-modelled) -/

/-- Modelled from the spec: challenge status (spec §3). -/
inductive CStatus where
  | draft
  | published
  | completed
  | deleted
deriving DecidableEq

/-- Modelled from the spec: the state the Lifecycle Manager operates on —
the challenges with their status, and the set of (challenge, user) active
participations (spec §4.4). -/
structure Store where
  challenges : List (ℕ × CStatus)
  participants : List (ℕ × ℕ)
deriving DecidableEq

/-- Status of a challenge id in an association list; `none` means no such
challenge exists. -/
def findStatus (ch : ℕ) : List (ℕ × CStatus) → Option CStatus
  | [] => none
  | (c, s) :: rest => if ch = c then some s else findStatus ch rest

/-- Transition one challenge's status to `deleted`, keeping the others. -/
def setDeleted (ch : ℕ) (l : List (ℕ × CStatus)) : List (ℕ × CStatus) :=
  l.map fun p => if p.1 = ch then (p.1, CStatus.deleted) else p

/-- Modelled from the spec: the Join result taxonomy (spec §4.4 and §6). -/
inductive JoinResult where
  | ok
  | alreadyParticipating
  | challengeNotJoinable
  | notFound
deriving DecidableEq

/-- Modelled from the spec: the Leave result taxonomy (spec §4.4 and §6);
a successful leave always carries the `challengeDeleted` flag telling the
caller whether a cascade delete occurred. -/
inductive LeaveResult where
  | left (challengeDeleted : Bool)
  | notParticipating
  | notFound
deriving DecidableEq

/-- Modelled from the spec: `JoinChallenge` (spec §4.4):
`ChallengeNotJoinable` fires when `status ≠ published`; joining twice gives
`AlreadyParticipating`; otherwise the participation is recorded. -/
def join (st : Store) (ch u : ℕ) : Store × JoinResult :=
  match findStatus ch st.challenges with
  | none => (st, .notFound)
  | some s =>
    if s = CStatus.published then
      if (ch, u) ∈ st.participants then (st, .alreadyParticipating)
      else ({ st with participants := (ch, u) :: st.participants }, .ok)
    else (st, .challengeNotJoinable)

/-- Modelled from the spec: `LeaveChallenge` (spec §4.4): a non-participant
gets `NotParticipating`; otherwise the participation is removed, and when no
participant of the challenge remains the challenge cascades to `deleted` and
the result reports `challengeDeleted = true`. -/
def leave (st : Store) (ch u : ℕ) : Store × LeaveResult :=
  match findStatus ch st.challenges with
  | none => (st, .notFound)
  | some _ =>
    if (ch, u) ∈ st.participants then
      let remaining := st.participants.filter fun p => p ≠ (ch, u)
      if remaining.any fun p => p.1 = ch then
        ({ st with participants := remaining }, .left false)
      else
        ({ challenges := setDeleted ch st.challenges, participants := remaining },
          .left true)
    else (st, .notParticipating)

/-- One lifecycle operation: a join or a leave request. -/
inductive Op where
  | joinOp (ch u : ℕ)
  | leaveOp (ch u : ℕ)
deriving DecidableEq

/-- The store after one lifecycle operation. -/
def applyOp (st : Store) : Op → Store
  | .joinOp ch u => (join st ch u).1
  | .leaveOp ch u => (leave st ch u).1

/-- The store after a sequence of lifecycle operations. -/
def applyOps (st : Store) (ops : List Op) : Store :=
  ops.foldl applyOp st

theorem findStatus_setDeleted (ch c : ℕ) (l : List (ℕ × CStatus)) :
    findStatus ch (setDeleted c l) =
      if ch = c then (findStatus ch l).map (fun _ => CStatus.deleted)
      else findStatus ch l := by
  induction l with
  | nil => simp [setDeleted, findStatus]
  | cons p rest ih =>
    obtain ⟨a, s⟩ := p
    have hcons : setDeleted c ((a, s) :: rest) =
        (if a = c then (a, CStatus.deleted) else (a, s)) :: setDeleted c rest := by
      by_cases hac : a = c <;> simp [setDeleted, hac]
    rw [hcons]
    by_cases hac : a = c
    · rw [if_pos hac]
      by_cases hch : ch = a
      · simp [findStatus, hch, hac]
      · have hchc : ¬ ch = c := fun hh => hch (hh.trans hac.symm)
        simp [findStatus, hch, hchc, ih]
    · rw [if_neg hac]
      by_cases hch : ch = a
      · simp [findStatus, hch, hac]
      · simp [findStatus, hch, ih]

theorem join_challenges (st : Store) (ch u : ℕ) :
    (join st ch u).1.challenges = st.challenges := by
  unfold join
  cases findStatus ch st.challenges with
  | none => rfl
  | some s =>
    dsimp only
    split_ifs <;> rfl

theorem leave_preserves_deleted (st : Store) (c u ch : ℕ)
    (h : findStatus ch st.challenges = some CStatus.deleted) :
    findStatus ch ((leave st c u).1).challenges = some CStatus.deleted := by
  unfold leave
  cases hf : findStatus c st.challenges with
  | none => exact h
  | some s =>
    dsimp only
    split_ifs with hmem hany
    · exact h
    · show findStatus ch (setDeleted c st.challenges) = some CStatus.deleted
      rw [findStatus_setDeleted]
      by_cases hcc : ch = c
      · rw [if_pos hcc, h]
        rfl
      · rw [if_neg hcc]
        exact h
    · exact h

theorem applyOp_preserves_deleted (st : Store) (op : Op) (ch : ℕ)
    (h : findStatus ch st.challenges = some CStatus.deleted) :
    findStatus ch (applyOp st op).challenges = some CStatus.deleted := by
  cases op with
  | joinOp c u => rw [applyOp, join_challenges]; exact h
  | leaveOp c u => exact leave_preserves_deleted st c u ch h

theorem applyOps_preserves_deleted (ops : List Op) (st : Store) (ch : ℕ)
    (h : findStatus ch st.challenges = some CStatus.deleted) :
    findStatus ch (applyOps st ops).challenges = some CStatus.deleted := by
  induction ops generalizing st with
  | nil => exact h
  | cons op rest ih =>
    exact ih (applyOp st op) (applyOp_preserves_deleted st op ch h)

theorem join_deleted_notJoinable (st : Store) (ch u : ℕ)
    (h : findStatus ch st.challenges = some CStatus.deleted) :
    (join st ch u).2 = JoinResult.challengeNotJoinable := by
  unfold join
  rw [h]
  simp

theorem leave_left_true_deleted (st st' : Store) (ch u : ℕ)
    (h : leave st ch u = (st', LeaveResult.left true)) :
    findStatus ch st'.challenges = some CStatus.deleted := by
  unfold leave at h
  cases hf : findStatus ch st.challenges with
  | none =>
    rw [hf] at h
    exact absurd (congrArg Prod.snd h) (by simp)
  | some s =>
    rw [hf] at h
    dsimp only at h
    split_ifs at h with hmem hany
    · exact absurd (congrArg Prod.snd h) (by simp)
    · have hst : st' = ⟨setDeleted ch st.challenges,
          st.participants.filter fun p => p ≠ (ch, u)⟩ :=
        (congrArg Prod.fst h).symm
      rw [hst]
      show findStatus ch (setDeleted ch st.challenges) = some CStatus.deleted
      rw [findStatus_setDeleted]
      simp [hf]
    · exact absurd (congrArg Prod.snd h) (by simp)

/-- C4: after a `LeaveChallenge` call whose result reports
`challengeDeleted = true` (the cascade delete), every subsequent
`JoinChallenge` on that challenge id — after any further sequence of
join/leave operations — fails with `ChallengeNotJoinable`. -/
theorem cascade_delete_blocks_join (st st' : Store) (ch u : ℕ)
    (h : leave st ch u = (st', LeaveResult.left true))
    (ops : List Op) (u' : ℕ) :
    (join (applyOps st' ops) ch u').2 = JoinResult.challengeNotJoinable :=
  join_deleted_notJoinable _ ch u'
    (applyOps_preserves_deleted ops st' ch (leave_left_true_deleted st st' ch u h))

/-- Witness for C4: a published challenge 1 whose sole participant (user 7)
leaves; the result reports the cascade delete and a later join by user 9
fails with `ChallengeNotJoinable`. -/
theorem cascade_delete_blocks_join_witness :
    (join (applyOps ⟨[(1, CStatus.deleted)], []⟩ []) 1 9).2 =
      JoinResult.challengeNotJoinable :=
  cascade_delete_blocks_join ⟨[(1, CStatus.published)], [(1, 7)]⟩
    ⟨[(1, CStatus.deleted)], []⟩ 1 7 (by decide) [] 9

theorem leave_left_not_mem (st st' : Store) (ch u : ℕ) (b : Bool)
    (h : leave st ch u = (st', LeaveResult.left b)) :
    (ch, u) ∉ st'.participants ∧ ∃ s, findStatus ch st'.challenges = some s := by
  unfold leave at h
  cases hf : findStatus ch st.challenges with
  | none =>
    rw [hf] at h
    exact absurd (congrArg Prod.snd h) (by simp)
  | some s0 =>
    rw [hf] at h
    dsimp only at h
    split_ifs at h with hmem hany
    · have hst : st' =
          { st with participants := st.participants.filter fun p => p ≠ (ch, u) } :=
        (congrArg Prod.fst h).symm
      constructor
      · intro hmem'
        rw [hst] at hmem'
        simp [List.mem_filter] at hmem'
      · exact ⟨s0, by rw [hst]; exact hf⟩
    · have hst : st' =
          ⟨setDeleted ch st.challenges,
            st.participants.filter fun p => p ≠ (ch, u)⟩ :=
        (congrArg Prod.fst h).symm
      constructor
      · intro hmem'
        rw [hst] at hmem'
        simp [List.mem_filter] at hmem'
      · refine ⟨CStatus.deleted, ?_⟩
        rw [hst]
        show findStatus ch (setDeleted ch st.challenges) = some CStatus.deleted
        rw [findStatus_setDeleted, if_pos rfl, hf]
        rfl
    · exact absurd (congrArg Prod.snd h) (by simp)

/-- C7: calling `LeaveChallenge` a second time after a successful leave (for
the same (challenge, user) pair) fails with `NotParticipating` and returns
the store unchanged — no state corruption. -/
theorem leave_twice_notParticipating (st st' : Store) (ch u : ℕ) (b : Bool)
    (h : leave st ch u = (st', LeaveResult.left b)) :
    leave st' ch u = (st', LeaveResult.notParticipating) := by
  obtain ⟨hnotmem, s, hs⟩ := leave_left_not_mem st st' ch u b h
  unfold leave
  rw [hs]
  dsimp only
  rw [if_neg hnotmem]

/-- Witness for C7: challenge 1 with participants 7 and 8; after user 7
leaves, a second leave by user 7 fails with `NotParticipating` and leaves
the store untouched. -/
theorem leave_twice_notParticipating_witness :
    leave ⟨[(1, CStatus.published)], [(1, 8)]⟩ 1 7 =
      (⟨[(1, CStatus.published)], [(1, 8)]⟩, LeaveResult.notParticipating) :=
  leave_twice_notParticipating ⟨[(1, CStatus.published)], [(1, 7), (1, 8)]⟩
    ⟨[(1, CStatus.published)], [(1, 8)]⟩ 1 7 false (by decide)

/-- Witness for C9: cap field `0` (falsy), submission `(300, 3)` — rate
exactly 100 — passes the default-cap check and issues the request. -/
theorem client_default_cap_100_witness :
    handleLogProgress (some 0) 300 3 "" = ClientLogOutcome.request 300 3 "" :=
  (client_default_cap_100 (some 0) 300 3 "" (by norm_num) (Or.inr rfl)).mpr
    (by norm_num)

end FitLogger
